import Mathlib

/-!
Verification of the statistics engine in `crates/metrics/src/stats.rs`.

The engine accumulates running descriptive statistics (mean, variance,
standard deviation, min, max, count) over a stream of `f64` values,
merges independently accumulated statistics, and compares an observed
statistic set against an expected baseline.

Modelling conventions:
* `f64` values are modelled as exact rationals (`ℚ`); division by zero
  yields `0` (Lean's convention for `ℚ`).  A second, NaN-aware model
  (`FVal := Option ℚ`, with `none` playing the role of NaN) is used for
  the claims about IEEE semantics of non-numbers (comparisons with NaN
  and the zero-divisor division in the zero-count variance).
* `u64` counters are modelled as `ℕ` (the counts in this module only
  grow by 1 per observation, so overflow is not reachable in practice).
* Rust's `Result<T, E>` is `Except E T`; `Vec<T>` is `List T`
  (sequential `push`es become list concatenation in push order);
  `HashMap<String, V>` is a key-unique association list
  `List (String × V)` with `List.lookup` as `get`.
* The standard-deviation accessor returns `Real.sqrt` of the variance,
  hence lives in `ℝ`.
-/

/-- The largest finite `f64`, `f64::MAX = (2 - 2⁻⁵²)·2¹⁰²³`, as an exact
rational (`f64::max_value()` in the source). -/
def f64MaxValue : ℚ := 2 ^ 1024 - 2 ^ 971

/-- The smallest finite `f64`, `f64::MIN = -f64::MAX`, as an exact
rational (`f64::min_value()` in the source). -/
def f64MinValue : ℚ := -(2 ^ 1024 - 2 ^ 971)

/-- Modelled from the spec: the `OnlineStats` accumulator of the external
`stats` crate is not part of this repository's sources; §4.1 of the spec
requires a numerically stable single-pass (Welford) update and a
parallel-variance (Chan-style) combination formula for `merge`.
State: observation count `size`, online mean `mean`, and `q`, the sum of
squared deviations from the mean (so the population variance is
`q / size`). -/
structure OnlineStats where
  size : Nat
  mean : ℚ
  q : ℚ
deriving DecidableEq

/-- `OnlineStats::new()`: the all-zero initial accumulator state. -/
def OnlineStats.new : OnlineStats := ⟨0, 0, 0⟩

/-- Modelled from the spec: Welford's single-pass update.
`mean += (x - oldmean) / size; q += (x - oldmean) * (x - newmean)`. -/
def OnlineStats.add (s : OnlineStats) (sample : ℚ) : OnlineStats :=
  let oldmean := s.mean
  let size := s.size + 1
  let mean := oldmean + (sample - oldmean) / (size : ℚ)
  let q := s.q + (sample - oldmean) * (sample - mean)
  ⟨size, mean, q⟩

/-- Modelled from the spec: Chan's parallel combination of two
independently computed accumulators.  The combined mean is the
count-weighted average; the combined sum of squared deviations adds the
two partial sums plus the between-groups correction term. -/
def OnlineStats.merge (s v : OnlineStats) : OnlineStats :=
  let s1 : ℚ := (s.size : ℚ)
  let s2 : ℚ := (v.size : ℚ)
  let mean := (s1 * s.mean + s2 * v.mean) / (s1 + s2)
  let q := s.q + v.q + (s.mean - v.mean) ^ 2 * s1 * s2 / (s1 + s2)
  ⟨s.size + v.size, mean, q⟩

/-- `OnlineStats::variance()`: population variance `q / size`. -/
def OnlineStats.variance (s : OnlineStats) : ℚ := s.q / (s.size : ℚ)

/-- `OnlineStats::stddev()`: square root of the variance. -/
noncomputable def OnlineStats.stddev (s : OnlineStats) : ℝ :=
  Real.sqrt (s.variance : ℝ)

/-- `DescriptiveStats`: an extension of `OnlineStats` that also
incrementally tracks max and min values, plus its own count `cnt`. -/
structure DescriptiveStats where
  online_stats : OnlineStats
  max : ℚ
  min : ℚ
  cnt : Nat
deriving DecidableEq

namespace DescriptiveStats

/-- `DescriptiveStats::empty()`: an initial empty statistic, with the
max/min trackers at the extreme sentinels `f64::min_value()` /
`f64::max_value()`. -/
def empty : DescriptiveStats :=
  ⟨OnlineStats.new, f64MinValue, f64MaxValue, 0⟩

/-- `DescriptiveStats::add(value)`: feeds the value to the online
accumulator, updates `max` if `value > max`, updates `min` if
`value < min`, and increments `cnt`. -/
def add (s : DescriptiveStats) (value : ℚ) : DescriptiveStats :=
  ⟨s.online_stats.add value,
   if value > s.max then value else s.max,
   if value < s.min then value else s.min,
   s.cnt + 1⟩

/-- `DescriptiveStats::mean()`. -/
def mean (s : DescriptiveStats) : ℚ := s.online_stats.mean

/-- `DescriptiveStats::stddev()`. -/
noncomputable def stddev (s : DescriptiveStats) : ℝ := s.online_stats.stddev

/-- `DescriptiveStats::variance()`. -/
def variance (s : DescriptiveStats) : ℚ := s.online_stats.variance

/-- `DescriptiveStats::count()`. -/
def count (s : DescriptiveStats) : Nat := s.cnt

/-- `<DescriptiveStats as Commute>::merge(rhs)`: merges the online
accumulators, takes the larger `max` and smaller `min`, and adds the
counts. -/
def merge (s rhs : DescriptiveStats) : DescriptiveStats :=
  ⟨s.online_stats.merge rhs.online_stats,
   if rhs.max > s.max then rhs.max else s.max,
   if rhs.min < s.min then rhs.min else s.min,
   s.cnt + rhs.cnt⟩

/-- Accumulating a sequence of values one at a time into an initially
empty statistic (repeated `add`, as in `StatsByMetric::from_iter` for a
single metric name). -/
def accumulate (xs : List ℚ) : DescriptiveStats :=
  xs.foldl add empty

end DescriptiveStats

/-! ## Closed-form characterization of the online accumulator -/

/-- Sum of squares of a list of rationals. -/
def sumSq (xs : List ℚ) : ℚ := (xs.map (fun x => x ^ 2)).sum

/-- Closed form of the accumulator state after absorbing the list `xs`:
count, arithmetic mean, and sum of squared deviations
`Σ x² - (Σ x)² / n`. -/
def listStats (xs : List ℚ) : OnlineStats :=
  ⟨xs.length, xs.sum / (xs.length : ℚ),
   sumSq xs - xs.sum ^ 2 / (xs.length : ℚ)⟩

/-! ## Threshold checking -/

/-- `DescriptiveStatType`: which dimension of a statistic a failure
refers to. -/
inductive DescriptiveStatType where
  | Mean
  | Max
  | Min
  | StdDev
  | Count
deriving DecidableEq

/-- `StatFailure`: one dimension where an observed value exceeds the
expected bound.  Both values are recorded as floats (modelled in `ℝ`,
since the standard deviation lives in `ℝ`; the count is cast, as in
`expected.count() as f64`). -/
structure StatFailure where
  expected : ℝ
  actual : ℝ
  stat_type : DescriptiveStatType

open Classical in
/-- `<LessThanStatCheck as StatCheck>::check(expected, actual)`:
compares the five dimensions in the order mean, stddev, max, min,
count, pushing a failure for each dimension where the actual value is
strictly greater than the expected one; returns `Ok(*actual)` when no
failure was pushed, otherwise `Err(failures)`.  The sequential
`Vec::push`es are rendered as list concatenation in push order. -/
noncomputable def LessThanStatCheck.check
    (expected actual : DescriptiveStats) :
    Except (List StatFailure) DescriptiveStats :=
  let failures : List StatFailure :=
    (if actual.mean > expected.mean then
      [⟨(expected.mean : ℝ), (actual.mean : ℝ), DescriptiveStatType.Mean⟩]
     else [])
    ++ (if actual.stddev > expected.stddev then
      [⟨expected.stddev, actual.stddev, DescriptiveStatType.StdDev⟩]
     else [])
    ++ (if actual.max > expected.max then
      [⟨(expected.max : ℝ), (actual.max : ℝ), DescriptiveStatType.Max⟩]
     else [])
    ++ (if actual.min > expected.min then
      [⟨(expected.min : ℝ), (actual.min : ℝ), DescriptiveStatType.Min⟩]
     else [])
    ++ (if actual.count > expected.count then
      [⟨(expected.count : ℝ), (actual.count : ℝ), DescriptiveStatType.Count⟩]
     else [])
  if failures = [] then Except.ok actual else Except.error failures

/-- `StatsByMetric`: all combined descriptive statistics mapped by name
of the metric; the `HashMap<String, DescriptiveStats>` is modelled as a
key-unique association list, with `List.lookup` as `HashMap::get`. -/
abbrev StatsByMetric := List (String × DescriptiveStats)

/-- `<dyn StatCheck>::check_all(expected, actual)`: for each metric
name in `expected`, look the same name up in `actual`; if present, run
the policy's `check` on the two statistics, otherwise record
`Err(vec![])`.  The check policy (`self`) is passed as the function
argument `check`. -/
def checkAll
    (check : DescriptiveStats → DescriptiveStats →
      Except (List StatFailure) DescriptiveStats)
    (expected actual : StatsByMetric) :
    List (String × Except (List StatFailure) DescriptiveStats) :=
  expected.map (fun p =>
    (p.1, match actual.lookup p.1 with
          | some actualStat => check p.2 actualStat
          | none => Except.error []))

/-! ## NaN-aware model of the comparisons in `add`

The exact-rational model above cannot express IEEE NaN.  For the claims
about NaN, `f64` is modelled as `Option ℚ`: `none` is NaN (or any
non-numeric result), `some x` a finite value.  Comparisons involving
NaN are false; arithmetic involving NaN propagates NaN. -/

/-- A NaN-aware `f64` value: `none` plays the role of NaN. -/
abbrev FVal := Option ℚ

/-- IEEE strict `>`: false whenever either side is NaN. -/
def fgt : FVal → FVal → Bool
  | some a, some b => a > b
  | _, _ => false

/-- IEEE strict `<`: false whenever either side is NaN. -/
def flt : FVal → FVal → Bool
  | some a, some b => a < b
  | _, _ => false

/-- NaN-propagating addition. -/
def fAdd : FVal → FVal → FVal
  | some a, some b => some (a + b)
  | _, _ => none

/-- NaN-propagating subtraction. -/
def fSub : FVal → FVal → FVal
  | some a, some b => some (a - b)
  | _, _ => none

/-- NaN-propagating multiplication. -/
def fMul : FVal → FVal → FVal
  | some a, some b => some (a * b)
  | _, _ => none

/-- NaN-propagating division; a zero divisor gives a non-numeric
result (the accumulator only ever divides by `size + 1 ≥ 1`). -/
def fDiv : FVal → FVal → FVal
  | some a, some b => if b = 0 then none else some (a / b)
  | _, _ => none

/-- NaN-aware counterpart of the `OnlineStats` model. -/
structure OnlineStatsF where
  size : Nat
  mean : FVal
  q : FVal
deriving DecidableEq

/-- `OnlineStats::new()` in the NaN-aware model. -/
def OnlineStatsF.new : OnlineStatsF := ⟨0, some 0, some 0⟩

/-- Welford's update in the NaN-aware model (same shape as
`OnlineStats.add`, with NaN-propagating operations). -/
def OnlineStatsF.add (s : OnlineStatsF) (sample : FVal) : OnlineStatsF :=
  let oldmean := s.mean
  let size := s.size + 1
  let mean := fAdd oldmean (fDiv (fSub sample oldmean) (some (size : ℚ)))
  let q := fAdd s.q (fMul (fSub sample oldmean) (fSub sample mean))
  ⟨size, mean, q⟩

/-- NaN-aware counterpart of `DescriptiveStats`. -/
structure DescriptiveStatsF where
  online_stats : OnlineStatsF
  max : FVal
  min : FVal
  cnt : Nat
deriving DecidableEq

/-- `DescriptiveStats::empty()` in the NaN-aware model. -/
def DescriptiveStatsF.empty : DescriptiveStatsF :=
  ⟨OnlineStatsF.new, some f64MinValue, some f64MaxValue, 0⟩

/-- `DescriptiveStats::add(value)` in the NaN-aware model: the max/min
updates use the IEEE strict comparisons `value > max` / `value < min`. -/
def DescriptiveStatsF.add (s : DescriptiveStatsF) (value : FVal) :
    DescriptiveStatsF :=
  ⟨s.online_stats.add value,
   if fgt value s.max then value else s.max,
   if flt value s.min then value else s.min,
   s.cnt + 1⟩

/-- NaN-propagating IEEE square root: the square root of NaN or of a
negative value is NaN. -/
noncomputable def fSqrt : FVal → Option ℝ
  | some a => if a < 0 then none else some (Real.sqrt (a : ℝ))
  | none => none

/-- `OnlineStats::variance()` in the NaN-aware model: the f64 division
`q / size as f64`.  At the zero state this is the IEEE division
`0.0 / 0.0`, which is NaN. -/
def OnlineStatsF.variance (s : OnlineStatsF) : FVal :=
  fDiv s.q (some ((s.size : ℚ)))

/-- `OnlineStats::stddev()` in the NaN-aware model: the IEEE square
root of the variance (so NaN for a NaN variance). -/
noncomputable def OnlineStatsF.stddev (s : OnlineStatsF) : Option ℝ :=
  fSqrt s.variance

/-- `DescriptiveStats::mean()` in the NaN-aware model. -/
def DescriptiveStatsF.mean (s : DescriptiveStatsF) : FVal :=
  s.online_stats.mean

/-- `DescriptiveStats::variance()` in the NaN-aware model. -/
def DescriptiveStatsF.variance (s : DescriptiveStatsF) : FVal :=
  s.online_stats.variance

/-- `DescriptiveStats::stddev()` in the NaN-aware model. -/
noncomputable def DescriptiveStatsF.stddev (s : DescriptiveStatsF) :
    Option ℝ :=
  s.online_stats.stddev

/-! ## The public-API invariant of `DescriptiveStats` -/

/-- The invariant maintained by every `DescriptiveStats` built through
the public constructors (`empty`, `add`, `merge`; the fields are
private in the source): a zero-observation accumulator is still in its
initial state, and the max/min trackers never leave the interval
spanned by the `f64` sentinels. -/
def WellFormed (s : DescriptiveStats) : Prop :=
  (s.online_stats.size = 0 → s.online_stats = OnlineStats.new) ∧
  f64MinValue ≤ s.max ∧ s.min ≤ f64MaxValue

theorem listStats_nil : listStats [] = OnlineStats.new := by
  simp [listStats, OnlineStats.new, sumSq]

theorem listStats_snoc (ws : List ℚ) (x : ℚ) :
    (listStats ws).add x = listStats (ws ++ [x]) := by
  rcases eq_or_ne ws [] with rfl | h
  · simp only [listStats, OnlineStats.add, sumSq, List.nil_append,
      List.sum_nil, List.length_nil, List.map_nil, List.sum_cons,
      List.map_cons, List.length_cons, List.sum_singleton,
      List.length_singleton, OnlineStats.mk.injEq]
    norm_num
  · have hn : (ws.length : ℚ) ≠ 0 := by
      exact_mod_cast fun hh => h (List.length_eq_zero.mp (by exact_mod_cast hh))
    have h1 : (ws.length : ℚ) + 1 ≠ 0 := by positivity
    simp only [listStats, OnlineStats.add, sumSq, List.sum_append,
      List.length_append, List.map_append, List.map_cons, List.map_nil,
      List.sum_cons, List.sum_nil, List.length_cons, List.length_nil,
      List.sum_singleton, List.length_singleton, OnlineStats.mk.injEq]
    push_cast
    refine ⟨by simp, ?_, ?_⟩
    · field_simp <;> ring
    · field_simp <;> ring

theorem listStats_merge (xs ys : List ℚ) :
    (listStats xs).merge (listStats ys) = listStats (xs ++ ys) := by
  rcases eq_or_ne xs [] with rfl | hx
  · rcases eq_or_ne ys [] with rfl | hy
    · simp [listStats, OnlineStats.merge, sumSq]
    · have hny : (ys.length : ℚ) ≠ 0 := by
        exact_mod_cast fun hh => hy (List.length_eq_zero.mp (by exact_mod_cast hh))
      simp only [listStats, OnlineStats.merge, sumSq, List.nil_append,
        List.sum_nil, List.length_nil, List.map_nil, OnlineStats.mk.injEq]
      push_cast
      refine ⟨by simp, ?_, ?_⟩
      · field_simp <;> ring
      · field_simp <;> ring
  · rcases eq_or_ne ys [] with rfl | hy
    · have hnx : (xs.length : ℚ) ≠ 0 := by
        exact_mod_cast fun hh => hx (List.length_eq_zero.mp (by exact_mod_cast hh))
      simp only [listStats, OnlineStats.merge, sumSq, List.append_nil,
        List.sum_nil, List.length_nil, List.map_nil, OnlineStats.mk.injEq]
      push_cast
      refine ⟨by simp, ?_, ?_⟩
      · field_simp <;> ring
      · field_simp <;> ring
    · have hnx : (xs.length : ℚ) ≠ 0 := by
        exact_mod_cast fun hh => hx (List.length_eq_zero.mp (by exact_mod_cast hh))
      have hny : (ys.length : ℚ) ≠ 0 := by
        exact_mod_cast fun hh => hy (List.length_eq_zero.mp (by exact_mod_cast hh))
      have hsum : (xs.length : ℚ) + (ys.length : ℚ) ≠ 0 := by
        have h1 : (0 : ℚ) ≤ (xs.length : ℚ) := by positivity
        have h2 : (0 : ℚ) ≤ (ys.length : ℚ) := by positivity
        intro hz
        rcases (add_eq_zero_iff_of_nonneg h1 h2).mp hz with ⟨ha, hb⟩
        exact hnx ha
      simp only [listStats, OnlineStats.merge, sumSq, List.sum_append,
        List.length_append, List.map_append, OnlineStats.mk.injEq]
      push_cast
      refine ⟨by simp, ?_, ?_⟩
      · field_simp <;> ring
      · field_simp <;> ring

/-! ## Max/min tracking as folds -/

theorem step_max (m v : ℚ) : (if v > m then v else m) = max m v := by
  rcases le_or_lt v m with h | h
  · rw [if_neg (not_lt.mpr h), max_eq_left h]
  · rw [if_pos h, max_eq_right h.le]

theorem step_min (m v : ℚ) : (if v < m then v else m) = min m v := by
  rcases le_or_lt m v with h | h
  · rw [if_neg (not_lt.mpr h), min_eq_left h]
  · rw [if_pos h, min_eq_right h.le]

theorem foldl_max_shift (xs : List ℚ) (a : ℚ) :
    ∀ b, xs.foldl max (max a b) = max a (xs.foldl max b) := by
  induction xs with
  | nil => intro b; rfl
  | cons x xs ih =>
      intro b
      simp only [List.foldl_cons, max_assoc]
      exact ih (max b x)

theorem le_foldl_max (xs : List ℚ) : ∀ a, a ≤ xs.foldl max a := by
  induction xs with
  | nil => intro a; exact le_rfl
  | cons x xs ih =>
      intro a
      exact le_trans (le_max_left a x) (ih (max a x))

theorem foldl_max_append (xs ys : List ℚ) (a : ℚ) :
    (xs ++ ys).foldl max a = max (xs.foldl max a) (ys.foldl max a) := by
  calc (xs ++ ys).foldl max a = ys.foldl max (xs.foldl max a) :=
        List.foldl_append ..
    _ = ys.foldl max (max (xs.foldl max a) a) := by
        rw [max_eq_left (le_foldl_max xs a)]
    _ = max (xs.foldl max a) (ys.foldl max a) := foldl_max_shift ys _ a

theorem foldl_max_perm {l₁ l₂ : List ℚ} (p : l₁.Perm l₂) :
    ∀ a, l₁.foldl max a = l₂.foldl max a := by
  induction p with
  | nil => intro a; rfl
  | cons x _ ih => intro a; simp only [List.foldl_cons]; exact ih _
  | swap x y l => intro a; simp only [List.foldl_cons]; rw [sup_right_comm]
  | trans _ _ ih1 ih2 => intro a; rw [ih1 a, ih2 a]

theorem foldl_min_shift (xs : List ℚ) (a : ℚ) :
    ∀ b, xs.foldl min (min a b) = min a (xs.foldl min b) := by
  induction xs with
  | nil => intro b; rfl
  | cons x xs ih =>
      intro b
      simp only [List.foldl_cons, min_assoc]
      exact ih (min b x)

theorem foldl_min_le (xs : List ℚ) : ∀ a, xs.foldl min a ≤ a := by
  induction xs with
  | nil => intro a; exact le_rfl
  | cons x xs ih =>
      intro a
      exact le_trans (ih (min a x)) (min_le_left a x)

theorem foldl_min_append (xs ys : List ℚ) (a : ℚ) :
    (xs ++ ys).foldl min a = min (xs.foldl min a) (ys.foldl min a) := by
  calc (xs ++ ys).foldl min a = ys.foldl min (xs.foldl min a) :=
        List.foldl_append ..
    _ = ys.foldl min (min (xs.foldl min a) a) := by
        rw [min_eq_left (foldl_min_le xs a)]
    _ = min (xs.foldl min a) (ys.foldl min a) := foldl_min_shift ys _ a

theorem foldl_min_perm {l₁ l₂ : List ℚ} (p : l₁.Perm l₂) :
    ∀ a, l₁.foldl min a = l₂.foldl min a := by
  induction p with
  | nil => intro a; rfl
  | cons x _ ih => intro a; simp only [List.foldl_cons]; exact ih _
  | swap x y l => intro a; simp only [List.foldl_cons]; rw [inf_right_comm]
  | trans _ _ ih1 ih2 => intro a; rw [ih1 a, ih2 a]

/-! ## Characterization of `accumulate` -/

theorem foldl_add_components (xs : List ℚ) :
    ∀ s : DescriptiveStats,
      xs.foldl DescriptiveStats.add s =
        ⟨xs.foldl OnlineStats.add s.online_stats,
         xs.foldl (fun m v => max m v) s.max,
         xs.foldl (fun m v => min m v) s.min,
         s.cnt + xs.length⟩ := by
  induction xs with
  | nil => intro s; rfl
  | cons x xs ih =>
      intro s
      rw [List.foldl_cons, ih]
      simp only [DescriptiveStats.add, List.foldl_cons, List.length_cons,
        DescriptiveStats.mk.injEq, step_max, step_min]
      refine ⟨trivial, trivial, trivial, by omega⟩

theorem foldl_online_listStats (xs : List ℚ) :
    ∀ ws, xs.foldl OnlineStats.add (listStats ws) = listStats (ws ++ xs) := by
  induction xs with
  | nil => intro ws; rw [List.foldl_nil, List.append_nil]
  | cons x xs ih =>
      intro ws
      rw [List.foldl_cons, listStats_snoc, ih]
      simp

/-- Full closed form of `accumulate`: the online part is `listStats`,
the max/min trackers are folds of `max`/`min` from the sentinels, and
the count is the list length. -/
theorem accumulate_components (xs : List ℚ) :
    DescriptiveStats.accumulate xs =
      ⟨listStats xs, xs.foldl (fun m v => max m v) f64MinValue,
       xs.foldl (fun m v => min m v) f64MaxValue, xs.length⟩ := by
  rw [DescriptiveStats.accumulate, foldl_add_components]
  have h : xs.foldl OnlineStats.add DescriptiveStats.empty.online_stats
      = listStats xs := by
    show xs.foldl OnlineStats.add OnlineStats.new = listStats xs
    rw [← listStats_nil, foldl_online_listStats, List.nil_append]
  rw [h]
  simp [DescriptiveStats.empty]

theorem listStats_perm {l₁ l₂ : List ℚ} (p : l₁.Perm l₂) :
    listStats l₁ = listStats l₂ := by
  have hsq : sumSq l₁ = sumSq l₂ := (p.map (fun x => x ^ 2)).sum_eq
  simp only [listStats, p.length_eq, p.sum_eq, hsq]

/-- `accumulate` only depends on the multiset of values: any
reordering of the stream yields the identical statistic. -/
theorem accumulate_perm {l₁ l₂ : List ℚ} (p : l₁.Perm l₂) :
    DescriptiveStats.accumulate l₁ = DescriptiveStats.accumulate l₂ := by
  rw [accumulate_components, accumulate_components]
  simp only [DescriptiveStats.mk.injEq]
  exact ⟨listStats_perm p, foldl_max_perm p _, foldl_min_perm p _,
    p.length_eq⟩

/-- Merging two accumulated statistics equals accumulating the
concatenated stream. -/
theorem merge_accumulate (xs ys : List ℚ) :
    (DescriptiveStats.accumulate xs).merge (DescriptiveStats.accumulate ys) =
      DescriptiveStats.accumulate (xs ++ ys) := by
  rw [accumulate_components, accumulate_components, accumulate_components]
  simp only [DescriptiveStats.merge, DescriptiveStats.mk.injEq, step_max,
    step_min]
  refine ⟨listStats_merge xs ys, ?_, ?_, by simp⟩
  · rw [foldl_max_append]
  · rw [foldl_min_append]


theorem wellFormed_empty : WellFormed DescriptiveStats.empty :=
  ⟨fun _ => rfl, le_refl _, le_refl _⟩

theorem wellFormed_add {s : DescriptiveStats} (hs : WellFormed s)
    (value : ℚ) : WellFormed (s.add value) := by
  obtain ⟨-, hmax, hmin⟩ := hs
  refine ⟨fun h => absurd h (by simp [DescriptiveStats.add, OnlineStats.add]),
    ?_, ?_⟩
  · show f64MinValue ≤ if value > s.max then value else s.max
    split
    · exact le_trans hmax (le_of_lt (by assumption))
    · exact hmax
  · show (if value < s.min then value else s.min) ≤ f64MaxValue
    split
    · exact le_trans (le_of_lt (by assumption)) hmin
    · exact hmin

theorem wellFormed_merge {s t : DescriptiveStats} (hs : WellFormed s)
    (ht : WellFormed t) : WellFormed (s.merge t) := by
  obtain ⟨hs0, hsmax, hsmin⟩ := hs
  obtain ⟨ht0, htmax, htmin⟩ := ht
  refine ⟨?_, ?_, ?_⟩
  · intro h
    have h1 : s.online_stats.size = 0 ∧ t.online_stats.size = 0 := by
      have := h
      simp only [DescriptiveStats.merge, OnlineStats.merge] at this
      omega
    have e1 := hs0 h1.1
    have e2 := ht0 h1.2
    simp [DescriptiveStats.merge, OnlineStats.merge, e1, e2,
      OnlineStats.new]
  · show f64MinValue ≤ if t.max > s.max then t.max else s.max
    split
    · exact htmax
    · exact hsmax
  · show (if t.min < s.min then t.min else s.min) ≤ f64MaxValue
    split
    · exact htmin
    · exact hsmin

theorem wellFormed_accumulate (xs : List ℚ) :
    WellFormed (DescriptiveStats.accumulate xs) := by
  have h : ∀ s : DescriptiveStats, WellFormed s →
      WellFormed (xs.foldl DescriptiveStats.add s) := by
    induction xs with
    | nil => intro s hs; exact hs
    | cons x xs ih =>
        intro s hs
        exact ih _ (wellFormed_add hs x)
  exact h _ wellFormed_empty

example : (DescriptiveStats.accumulate [50, 100, 150]).mean = 100 := by
  norm_num [DescriptiveStats.accumulate, DescriptiveStats.add,
    DescriptiveStats.empty, DescriptiveStats.mean, OnlineStats.add,
    OnlineStats.new]

example : (DescriptiveStats.accumulate [1, 10, 100]).mean = 37 := by
  norm_num [DescriptiveStats.accumulate, DescriptiveStats.add,
    DescriptiveStats.empty, DescriptiveStats.mean, OnlineStats.add,
    OnlineStats.new]

example : (DescriptiveStats.accumulate [50, 100, 150]).max = 150 := by
  norm_num [DescriptiveStats.accumulate, DescriptiveStats.add,
    DescriptiveStats.empty, OnlineStats.add, OnlineStats.new,
    f64MinValue, f64MaxValue]

/-! ## Supporting lemmas for the claims -/

theorem fgt_none_left (m : FVal) : fgt none m = false := by
  cases m <;> rfl

theorem flt_none_left (m : FVal) : flt none m = false := by
  cases m <;> rfl

theorem onlineStats_merge_new (t : OnlineStats)
    (h0 : t.size = 0 → t = OnlineStats.new) :
    t.merge OnlineStats.new = t := by
  obtain ⟨n, m, q⟩ := t
  rcases eq_or_ne n 0 with rfl | hz
  · rw [h0 rfl]
    simp [OnlineStats.merge, OnlineStats.new]
  · have hs : ((n : ℚ)) ≠ 0 := Nat.cast_ne_zero.mpr hz
    simp only [OnlineStats.merge, OnlineStats.new, OnlineStats.mk.injEq]
    refine ⟨rfl, ?_, ?_⟩
    · push_cast
      field_simp
    · push_cast
      ring

theorem merge_empty_eq {A : DescriptiveStats} (h : WellFormed A) :
    A.merge DescriptiveStats.empty = A := by
  obtain ⟨h0, hmax, hmin⟩ := h
  obtain ⟨os, mx, mn, c⟩ := A
  simp only [DescriptiveStats.merge, DescriptiveStats.empty,
    DescriptiveStats.mk.injEq]
  refine ⟨onlineStats_merge_new os h0, ?_, ?_, rfl⟩
  · exact if_neg (not_lt.mpr hmax)
  · exact if_neg (not_lt.mpr hmin)


theorem foldl_max_mem_or (xs : List ℚ) :
    ∀ a, xs.foldl max a ∈ xs ∨ xs.foldl max a = a := by
  induction xs with
  | nil => intro a; exact Or.inr rfl
  | cons x xs ih =>
      intro a
      rw [List.foldl_cons]
      rcases ih (max a x) with h | h
      · exact Or.inl (List.mem_cons_of_mem _ h)
      · rcases max_choice a x with hc | hc
        · exact Or.inr (h.trans hc)
        · exact Or.inl (by rw [h, hc]; exact List.mem_cons_self x xs)

theorem elem_le_foldl_max (xs : List ℚ) :
    ∀ a, ∀ x ∈ xs, x ≤ xs.foldl max a := by
  induction xs with
  | nil => intro a x hx; cases hx
  | cons y xs ih =>
      intro a x hx
      rw [List.foldl_cons]
      rcases List.mem_cons.mp hx with rfl | hx
      · exact le_trans (le_max_right a x) (le_foldl_max xs (max a x))
      · exact ih (max a y) x hx

theorem foldl_min_mem_or (xs : List ℚ) :
    ∀ a, xs.foldl min a ∈ xs ∨ xs.foldl min a = a := by
  induction xs with
  | nil => intro a; exact Or.inr rfl
  | cons x xs ih =>
      intro a
      rw [List.foldl_cons]
      rcases ih (min a x) with h | h
      · exact Or.inl (List.mem_cons_of_mem _ h)
      · rcases min_choice a x with hc | hc
        · exact Or.inr (h.trans hc)
        · exact Or.inl (by rw [h, hc]; exact List.mem_cons_self x xs)

theorem foldl_min_le_elem (xs : List ℚ) :
    ∀ a, ∀ x ∈ xs, xs.foldl min a ≤ x := by
  induction xs with
  | nil => intro a x hx; cases hx
  | cons y xs ih =>
      intro a x hx
      rw [List.foldl_cons]
      rcases List.mem_cons.mp hx with rfl | hx
      · exact le_trans (foldl_min_le xs (min a x)) (min_le_right a x)
      · exact ih (min a y) x hx

/-! ## Claims -/

/-- C1: For every sequence of values split into two subsequences
(`zs` is a permutation of `xs ++ ys`, covering every way of dealing the
stream out to two accumulators), accumulating each subsequence
independently via `add` and merging yields the same mean, variance,
stddev, max, min and count as accumulating the full sequence directly. -/
theorem merge_eq_full_accumulation (zs xs ys : List ℚ)
    (h : List.Perm zs (xs ++ ys)) :
    ((DescriptiveStats.accumulate xs).merge
        (DescriptiveStats.accumulate ys)).mean =
      (DescriptiveStats.accumulate zs).mean ∧
    ((DescriptiveStats.accumulate xs).merge
        (DescriptiveStats.accumulate ys)).variance =
      (DescriptiveStats.accumulate zs).variance ∧
    ((DescriptiveStats.accumulate xs).merge
        (DescriptiveStats.accumulate ys)).stddev =
      (DescriptiveStats.accumulate zs).stddev ∧
    ((DescriptiveStats.accumulate xs).merge
        (DescriptiveStats.accumulate ys)).max =
      (DescriptiveStats.accumulate zs).max ∧
    ((DescriptiveStats.accumulate xs).merge
        (DescriptiveStats.accumulate ys)).min =
      (DescriptiveStats.accumulate zs).min ∧
    ((DescriptiveStats.accumulate xs).merge
        (DescriptiveStats.accumulate ys)).count =
      (DescriptiveStats.accumulate zs).count := by
  have key : (DescriptiveStats.accumulate xs).merge
      (DescriptiveStats.accumulate ys) = DescriptiveStats.accumulate zs := by
    rw [merge_accumulate]
    exact (accumulate_perm h).symm
  rw [key]
  exact ⟨rfl, rfl, rfl, rfl, rfl, rfl⟩

/-- Witness for C1 at the stream `[1, 2, 3]` dealt into `[2]` and
`[1, 3]`. -/
theorem merge_eq_full_accumulation_witness :
    List.Perm [(1 : ℚ), 2, 3] ([2] ++ [1, 3]) ∧
    ((DescriptiveStats.accumulate [2]).merge
        (DescriptiveStats.accumulate [1, 3])).mean =
      (DescriptiveStats.accumulate [1, 2, 3]).mean ∧
    ((DescriptiveStats.accumulate [2]).merge
        (DescriptiveStats.accumulate [1, 3])).variance =
      (DescriptiveStats.accumulate [1, 2, 3]).variance ∧
    ((DescriptiveStats.accumulate [2]).merge
        (DescriptiveStats.accumulate [1, 3])).stddev =
      (DescriptiveStats.accumulate [1, 2, 3]).stddev ∧
    ((DescriptiveStats.accumulate [2]).merge
        (DescriptiveStats.accumulate [1, 3])).max =
      (DescriptiveStats.accumulate [1, 2, 3]).max ∧
    ((DescriptiveStats.accumulate [2]).merge
        (DescriptiveStats.accumulate [1, 3])).min =
      (DescriptiveStats.accumulate [1, 2, 3]).min ∧
    ((DescriptiveStats.accumulate [2]).merge
        (DescriptiveStats.accumulate [1, 3])).count =
      (DescriptiveStats.accumulate [1, 2, 3]).count :=
  ⟨List.Perm.swap 2 1 [3],
   merge_eq_full_accumulation [1, 2, 3] [2] [1, 3] (List.Perm.swap 2 1 [3])⟩

/-- C5: `merge` is commutative and associative on statistics
accumulated from a partition of one observation stream into three
parts: the three association orders agree exactly, and merging `A` then
`B` equals merging `B` then `A`. -/
theorem merge_comm_assoc (xs ys zs : List ℚ) :
    (((DescriptiveStats.accumulate xs).merge
        (DescriptiveStats.accumulate ys)).merge
          (DescriptiveStats.accumulate zs) =
      (DescriptiveStats.accumulate xs).merge
        ((DescriptiveStats.accumulate ys).merge
          (DescriptiveStats.accumulate zs))) ∧
    (((DescriptiveStats.accumulate xs).merge
        (DescriptiveStats.accumulate ys)).merge
          (DescriptiveStats.accumulate zs) =
      ((DescriptiveStats.accumulate xs).merge
        (DescriptiveStats.accumulate zs)).merge
          (DescriptiveStats.accumulate ys)) ∧
    ((DescriptiveStats.accumulate xs).merge
        (DescriptiveStats.accumulate ys) =
      (DescriptiveStats.accumulate ys).merge
        (DescriptiveStats.accumulate xs)) := by
  refine ⟨?_, ?_, ?_⟩
  · rw [merge_accumulate, merge_accumulate, merge_accumulate,
      merge_accumulate, List.append_assoc]
  · rw [merge_accumulate, merge_accumulate, merge_accumulate,
      merge_accumulate]
    refine accumulate_perm ?_
    rw [List.append_assoc, List.append_assoc]
    exact List.Perm.append_left xs (List.perm_append_comm)
  · rw [merge_accumulate, merge_accumulate]
    exact accumulate_perm (List.perm_append_comm)

/-- C6: merging the empty statistic into any statistic `A` satisfying
the public-API invariant is a no-op: all six accessors of
`A.merge(empty())` agree with those of `A`. -/
theorem merge_empty_noop (A : DescriptiveStats) (h : WellFormed A) :
    (A.merge DescriptiveStats.empty).mean = A.mean ∧
    (A.merge DescriptiveStats.empty).variance = A.variance ∧
    (A.merge DescriptiveStats.empty).stddev = A.stddev ∧
    (A.merge DescriptiveStats.empty).max = A.max ∧
    (A.merge DescriptiveStats.empty).min = A.min ∧
    (A.merge DescriptiveStats.empty).count = A.count := by
  rw [merge_empty_eq h]
  exact ⟨rfl, rfl, rfl, rfl, rfl, rfl⟩

/-- Witness for C6 at `A = empty()` (which satisfies the invariant). -/
theorem merge_empty_noop_witness :
    WellFormed DescriptiveStats.empty ∧
    (DescriptiveStats.empty.merge DescriptiveStats.empty).mean =
      DescriptiveStats.empty.mean ∧
    (DescriptiveStats.empty.merge DescriptiveStats.empty).variance =
      DescriptiveStats.empty.variance ∧
    (DescriptiveStats.empty.merge DescriptiveStats.empty).stddev =
      DescriptiveStats.empty.stddev ∧
    (DescriptiveStats.empty.merge DescriptiveStats.empty).max =
      DescriptiveStats.empty.max ∧
    (DescriptiveStats.empty.merge DescriptiveStats.empty).min =
      DescriptiveStats.empty.min ∧
    (DescriptiveStats.empty.merge DescriptiveStats.empty).count =
      DescriptiveStats.empty.count :=
  ⟨wellFormed_empty, merge_empty_noop DescriptiveStats.empty wellFormed_empty⟩

/-- C7: `empty()` has count 0, max at the minimum representable `f64`
and min at the maximum representable `f64`, and the first `add(v)` of
any representable value updates both trackers to `v`. -/
theorem empty_sentinels_first_add :
    DescriptiveStats.empty.count = 0 ∧
    DescriptiveStats.empty.max = f64MinValue ∧
    DescriptiveStats.empty.min = f64MaxValue ∧
    ∀ v : ℚ, f64MinValue ≤ v → v ≤ f64MaxValue →
      (DescriptiveStats.empty.add v).max = v ∧
      (DescriptiveStats.empty.add v).min = v := by
  refine ⟨rfl, rfl, rfl, fun v h1 h2 => ⟨?_, ?_⟩⟩
  · show (if v > f64MinValue then v else f64MinValue) = v
    rcases lt_or_eq_of_le h1 with h | h
    · rw [if_pos h]
    · rw [← h, if_neg (lt_irrefl _)]
  · show (if v < f64MaxValue then v else f64MaxValue) = v
    rcases lt_or_eq_of_le h2 with h | h
    · rw [if_pos h]
    · rw [h, if_neg (lt_irrefl _)]

/-- Witness for C7 at `v = 1`. -/
theorem empty_sentinels_first_add_witness :
    DescriptiveStats.empty.count = 0 ∧
    DescriptiveStats.empty.max = f64MinValue ∧
    DescriptiveStats.empty.min = f64MaxValue ∧
    f64MinValue ≤ (1 : ℚ) ∧ (1 : ℚ) ≤ f64MaxValue ∧
    (DescriptiveStats.empty.add 1).max = 1 ∧
    (DescriptiveStats.empty.add 1).min = 1 := by
  have hb1 : f64MinValue ≤ (1 : ℚ) := by norm_num [f64MinValue]
  have hb2 : (1 : ℚ) ≤ f64MaxValue := by norm_num [f64MaxValue]
  obtain ⟨a, b, c, d⟩ := empty_sentinels_first_add
  exact ⟨a, b, c, hb1, hb2, (d 1 hb1 hb2).1, (d 1 hb1 hb2).2⟩

/-- C4: for a non-empty sequence of representable values added one at a
time to an empty statistic, `mean` is the arithmetic mean of the
sequence, `max`/`min` are the true maximum/minimum (a member of the
sequence bounding all members), and `count` is the length. -/
theorem accumulate_accessors_correct (xs : List ℚ) (hne : xs ≠ [])
    (hrange : ∀ x ∈ xs, f64MinValue ≤ x ∧ x ≤ f64MaxValue) :
    (DescriptiveStats.accumulate xs).mean = xs.sum / (xs.length : ℚ) ∧
    (DescriptiveStats.accumulate xs).max ∈ xs ∧
    (∀ x ∈ xs, x ≤ (DescriptiveStats.accumulate xs).max) ∧
    (DescriptiveStats.accumulate xs).min ∈ xs ∧
    (∀ x ∈ xs, (DescriptiveStats.accumulate xs).min ≤ x) ∧
    (DescriptiveStats.accumulate xs).count = xs.length := by
  rw [accumulate_components]
  obtain ⟨x0, hx0⟩ := List.exists_mem_of_ne_nil xs hne
  refine ⟨rfl, ?_, ?_, ?_, ?_, rfl⟩
  · rcases foldl_max_mem_or xs f64MinValue with h | h
    · exact h
    · have h1 : x0 ≤ xs.foldl max f64MinValue :=
        elem_le_foldl_max xs f64MinValue x0 hx0
      have h2 : f64MinValue ≤ x0 := (hrange x0 hx0).1
      have : x0 = f64MinValue := le_antisymm (h ▸ h1) h2
      show xs.foldl (fun m v => max m v) f64MinValue ∈ xs
      rw [h, ← this]
      exact hx0
  · exact elem_le_foldl_max xs f64MinValue
  · rcases foldl_min_mem_or xs f64MaxValue with h | h
    · exact h
    · have h1 : xs.foldl min f64MaxValue ≤ x0 :=
        foldl_min_le_elem xs f64MaxValue x0 hx0
      have h2 : x0 ≤ f64MaxValue := (hrange x0 hx0).2
      have : x0 = f64MaxValue := le_antisymm h2 (h ▸ h1)
      show xs.foldl (fun m v => min m v) f64MaxValue ∈ xs
      rw [h, ← this]
      exact hx0
  · exact foldl_min_le_elem xs f64MaxValue

/-- Witness for C4 at the sequence `[1, 2, 3]`. -/
theorem accumulate_accessors_correct_witness :
    ([(1 : ℚ), 2, 3] ≠ []) ∧
    (DescriptiveStats.accumulate [1, 2, 3]).mean =
      ([(1 : ℚ), 2, 3].sum / (([(1 : ℚ), 2, 3].length : ℚ))) ∧
    (DescriptiveStats.accumulate [1, 2, 3]).max ∈ [(1 : ℚ), 2, 3] ∧
    (∀ x ∈ [(1 : ℚ), 2, 3], x ≤ (DescriptiveStats.accumulate [1, 2, 3]).max) ∧
    (DescriptiveStats.accumulate [1, 2, 3]).min ∈ [(1 : ℚ), 2, 3] ∧
    (∀ x ∈ [(1 : ℚ), 2, 3], (DescriptiveStats.accumulate [1, 2, 3]).min ≤ x) ∧
    (DescriptiveStats.accumulate [1, 2, 3]).count = [(1 : ℚ), 2, 3].length := by
  have hne : [(1 : ℚ), 2, 3] ≠ [] := by simp
  have hrange : ∀ x ∈ [(1 : ℚ), 2, 3],
      f64MinValue ≤ x ∧ x ≤ f64MaxValue := by
    intro x hx
    fin_cases hx <;> constructor <;> norm_num [f64MinValue, f64MaxValue]
  exact ⟨hne, accumulate_accessors_correct [1, 2, 3] hne hrange⟩

/-- C9: in the NaN-aware model, `add(NaN)` increments `cnt` by exactly
one and leaves `max` and `min` unchanged on every statistic (the strict
comparisons are false for NaN); on `empty()` in particular, the
trackers stay at the sentinels while `cnt` becomes 1. -/
theorem add_nan_semantics :
    (∀ S : DescriptiveStatsF,
      (S.add none).cnt = S.cnt + 1 ∧
      (S.add none).max = S.max ∧
      (S.add none).min = S.min) ∧
    (DescriptiveStatsF.empty.add none).max = some f64MinValue ∧
    (DescriptiveStatsF.empty.add none).min = some f64MaxValue ∧
    (DescriptiveStatsF.empty.add none).cnt = 1 := by
  refine ⟨fun S => ⟨rfl, ?_, ?_⟩, rfl, rfl, rfl⟩
  · show (if fgt none S.max then none else S.max) = S.max
    rw [fgt_none_left, if_neg (by simp)]
  · show (if flt none S.min then none else S.min) = S.min
    rw [flt_none_left, if_neg (by simp)]

/-- Counterexample to C10 as stated: in the NaN-aware model, which
renders the accumulator's `q / size` as the IEEE `f64` division, the
zero-observation statistic `empty()` has `variance = 0.0 / 0.0 = NaN`
and `stddev = sqrt(NaN) = NaN` (`none`), not `0.0`; only `mean`
returns the stored zero-state `0.0`.  So a zero-count statistic does
not report variance 0 and stddev 0 "rather than NaN". -/
theorem empty_variance_nan_counterexample :
    DescriptiveStatsF.empty.mean = some 0 ∧
    DescriptiveStatsF.empty.variance = none ∧
    DescriptiveStatsF.empty.stddev = none ∧
    (none : FVal) ≠ some (0 : ℚ) ∧
    (none : Option ℝ) ≠ some (0 : ℝ) := by
  have hvar : DescriptiveStatsF.empty.variance = none := by
    simp [DescriptiveStatsF.variance, DescriptiveStatsF.empty,
      OnlineStatsF.variance, OnlineStatsF.new, fDiv]
  refine ⟨rfl, hvar, ?_, by simp, by simp⟩
  show fSqrt DescriptiveStatsF.empty.online_stats.variance = none
  have : DescriptiveStatsF.empty.online_stats.variance = none := hvar
  rw [this]
  rfl

/-- C10 (amended): on the zero-observation statistic `empty()`, the
accessor `mean` returns the accumulator's zero-state `0.0`, while
`variance` — the IEEE division `q / size = 0.0 / 0.0` — is NaN, and
`stddev = sqrt(NaN)` is NaN; a zero-count statistic therefore reports
mean 0 but non-numeric variance and standard deviation. -/
theorem empty_zero_state_accessors :
    DescriptiveStatsF.empty.mean = some 0 ∧
    DescriptiveStatsF.empty.variance = none ∧
    DescriptiveStatsF.empty.stddev = none := by
  have hvar : DescriptiveStatsF.empty.variance = none := by
    simp [DescriptiveStatsF.variance, DescriptiveStatsF.empty,
      OnlineStatsF.variance, OnlineStatsF.new, fDiv]
  refine ⟨rfl, hvar, ?_⟩
  show fSqrt DescriptiveStatsF.empty.online_stats.variance = none
  have : DescriptiveStatsF.empty.online_stats.variance = none := hvar
  rw [this]
  rfl

open Classical in
/-- C2: `LessThanStatCheck::check` returns `Ok` with the actual
statistic unchanged iff no dimension of `actual` (mean, stddev, max,
min, count) is strictly greater than the corresponding dimension of
`expected`; otherwise it returns `Err` with one failure per violated
dimension, each carrying that dimension's expected and actual values,
without short-circuiting, in the order mean, stddev, max, min, count. -/
theorem lessThanCheck_characterization (e a : DescriptiveStats) :
    (LessThanStatCheck.check e a = Except.ok a ↔
      ¬(a.mean > e.mean) ∧ ¬(a.stddev > e.stddev) ∧ ¬(a.max > e.max) ∧
      ¬(a.min > e.min) ∧ ¬(a.count > e.count)) ∧
    ((a.mean > e.mean ∨ a.stddev > e.stddev ∨ a.max > e.max ∨
        a.min > e.min ∨ a.count > e.count) →
      LessThanStatCheck.check e a = Except.error
        ((if a.mean > e.mean then
            [⟨(e.mean : ℝ), (a.mean : ℝ), DescriptiveStatType.Mean⟩]
          else [])
         ++ (if a.stddev > e.stddev then
            [⟨e.stddev, a.stddev, DescriptiveStatType.StdDev⟩]
          else [])
         ++ (if a.max > e.max then
            [⟨(e.max : ℝ), (a.max : ℝ), DescriptiveStatType.Max⟩]
          else [])
         ++ (if a.min > e.min then
            [⟨(e.min : ℝ), (a.min : ℝ), DescriptiveStatType.Min⟩]
          else [])
         ++ (if a.count > e.count then
            [⟨(e.count : ℝ), (a.count : ℝ), DescriptiveStatType.Count⟩]
          else []))) := by
  by_cases h1 : a.mean > e.mean <;>
    by_cases h2 : a.stddev > e.stddev <;>
    by_cases h3 : a.max > e.max <;>
    by_cases h4 : a.min > e.min <;>
    by_cases h5 : a.count > e.count <;>
    simp [LessThanStatCheck.check, h1, h2, h3, h4, h5]

/-- Witness for C2 at `expected = actual = empty()` (no violated
dimension, so the check confirms the actual statistic). -/
theorem lessThanCheck_characterization_witness :
    LessThanStatCheck.check DescriptiveStats.empty DescriptiveStats.empty =
      Except.ok DescriptiveStats.empty :=
  (lessThanCheck_characterization DescriptiveStats.empty
      DescriptiveStats.empty).1.mpr
    ⟨by simp, by simp, by simp, by simp, by simp⟩

theorem checkAll_lookup_found
    (ch : DescriptiveStats → DescriptiveStats →
      Except (List StatFailure) DescriptiveStats)
    (expected actual : StatsByMetric) (name : String)
    (e act : DescriptiveStats)
    (hexp : expected.lookup name = some e)
    (hact : actual.lookup name = some act) :
    (checkAll ch expected actual).lookup name = some (ch e act) := by
  induction expected with
  | nil => simp at hexp
  | cons p rest ih =>
      obtain ⟨k, v⟩ := p
      rw [List.lookup_cons] at hexp
      simp only [checkAll, List.map_cons]
      rw [List.lookup_cons]
      rcases hbe : name == k with _ | _
      · rw [hbe] at hexp
        simp only at hexp ⊢
        exact ih hexp
      · have hk : name = k := by
          have := hbe
          simpa [beq_iff_eq] using this
        subst hk
        rw [hbe] at hexp
        simp only [Option.some.injEq] at hexp
        subst hexp
        simp only
        rw [hact]

theorem checkAll_lookup_missing
    (ch : DescriptiveStats → DescriptiveStats →
      Except (List StatFailure) DescriptiveStats)
    (expected actual : StatsByMetric) (name : String)
    (e : DescriptiveStats)
    (hexp : expected.lookup name = some e)
    (hact : actual.lookup name = none) :
    (checkAll ch expected actual).lookup name =
      some (Except.error []) := by
  induction expected with
  | nil => simp at hexp
  | cons p rest ih =>
      obtain ⟨k, v⟩ := p
      rw [List.lookup_cons] at hexp
      simp only [checkAll, List.map_cons]
      rw [List.lookup_cons]
      rcases hbe : name == k with _ | _
      · rw [hbe] at hexp
        simp only at hexp ⊢
        exact ih hexp
      · have hk : name = k := by
          have := hbe
          simpa [beq_iff_eq] using this
        subst hk
        simp only
        rw [hact]

theorem checkAll_lookup_absent
    (ch : DescriptiveStats → DescriptiveStats →
      Except (List StatFailure) DescriptiveStats)
    (expected actual : StatsByMetric) (name : String)
    (hexp : expected.lookup name = none) :
    (checkAll ch expected actual).lookup name = none := by
  induction expected with
  | nil => simp [checkAll]
  | cons p rest ih =>
      obtain ⟨k, v⟩ := p
      rw [List.lookup_cons] at hexp
      simp only [checkAll, List.map_cons]
      rw [List.lookup_cons]
      rcases hbe : name == k with _ | _
      · rw [hbe] at hexp
        simp only at hexp ⊢
        exact ih hexp
      · rw [hbe] at hexp
        simp at hexp

/-- Counterexample to C3 as stated: at the concrete input
`expected = [("m", empty())]`, `actual = {}` (the name `"m"` is absent
from `actual`), `check_all` maps `"m"` to `Err([])`; but a check that
found no violations returns `Ok(actual)` — as the middle conjunct shows
at `check(empty, empty)` — and `Err([])` is distinguishable from every
`Ok` result, so the missing-name outcome is not observably identical to
a passing check. -/
theorem missing_metric_distinguishable_counterexample :
    checkAll LessThanStatCheck.check
        [("m", DescriptiveStats.empty)] [] =
      [("m", Except.error [])] ∧
    LessThanStatCheck.check DescriptiveStats.empty DescriptiveStats.empty =
      Except.ok DescriptiveStats.empty ∧
    ∀ s : DescriptiveStats,
      (Except.error ([] : List StatFailure) :
        Except (List StatFailure) DescriptiveStats) ≠ Except.ok s := by
  refine ⟨rfl, ?_, fun s h => Except.noConfusion h⟩
  simp [LessThanStatCheck.check]

/-- C3 (amended): for every metric name present in `expected` but
absent from `actual`, `check_all` maps that name to an error with an
empty failure list (`Err([])`); this carries no failure details, but it
is distinguishable from a passing check, which returns the actual
statistic as a success (`Ok`): no `Ok` result equals `Err([])`. -/
theorem missing_metric_empty_failures
    (expected actual : StatsByMetric) (name : String)
    (e : DescriptiveStats)
    (hexp : expected.lookup name = some e)
    (hact : actual.lookup name = none) :
    (checkAll LessThanStatCheck.check expected actual).lookup name =
      some (Except.error []) ∧
    ∀ s : DescriptiveStats,
      (Except.error ([] : List StatFailure) :
        Except (List StatFailure) DescriptiveStats) ≠ Except.ok s :=
  ⟨checkAll_lookup_missing LessThanStatCheck.check expected actual name e
      hexp hact,
   fun s h => Except.noConfusion h⟩

/-- Witness for the amended C3 at
`expected = [("m", empty())]`, `actual = {}`, `name = "m"`. -/
theorem missing_metric_empty_failures_witness :
    ([("m", DescriptiveStats.empty)] : StatsByMetric).lookup "m" =
      some DescriptiveStats.empty ∧
    ([] : StatsByMetric).lookup "m" = none ∧
    (checkAll LessThanStatCheck.check
        [("m", DescriptiveStats.empty)] []).lookup "m" =
      some (Except.error []) ∧
    ∀ s : DescriptiveStats,
      (Except.error ([] : List StatFailure) :
        Except (List StatFailure) DescriptiveStats) ≠ Except.ok s :=
  ⟨rfl, rfl,
   (missing_metric_empty_failures [("m", DescriptiveStats.empty)] [] "m"
      DescriptiveStats.empty rfl rfl).1,
   (missing_metric_empty_failures [("m", DescriptiveStats.empty)] [] "m"
      DescriptiveStats.empty rfl rfl).2⟩

/-- C8: the key list of the mapping returned by `check_all` is exactly
the metric-name list of `expected`; every name found in both sets maps
to the result of `check` on the two statistics; names absent from
`expected` (in particular those present only in `actual`) do not appear
in the result. -/
theorem checkAll_key_structure
    (ch : DescriptiveStats → DescriptiveStats →
      Except (List StatFailure) DescriptiveStats)
    (expected actual : StatsByMetric) :
    ((checkAll ch expected actual).map Prod.fst =
      expected.map Prod.fst) ∧
    (∀ (name : String) (e act : DescriptiveStats),
      expected.lookup name = some e → actual.lookup name = some act →
      (checkAll ch expected actual).lookup name = some (ch e act)) ∧
    (∀ name : String, expected.lookup name = none →
      (checkAll ch expected actual).lookup name = none) := by
  refine ⟨?_, ?_, ?_⟩
  · rw [checkAll, List.map_map]
    rfl
  · intro name e act hexp hact
    exact checkAll_lookup_found ch expected actual name e act hexp hact
  · intro name hexp
    exact checkAll_lookup_absent ch expected actual name hexp

/-- Witness for C8 with `expected = [("m", empty())]` and
`actual = [("m", empty()), ("x", empty())]`: the key list is `["m"]`,
`"m"` maps to the result of the check, and `"x"` (present only in
`actual`) is absent from the result. -/
theorem checkAll_key_structure_witness :
    ((checkAll LessThanStatCheck.check [("m", DescriptiveStats.empty)]
        [("m", DescriptiveStats.empty), ("x", DescriptiveStats.empty)]).map
          Prod.fst =
      ([("m", DescriptiveStats.empty)] : StatsByMetric).map Prod.fst) ∧
    ((checkAll LessThanStatCheck.check [("m", DescriptiveStats.empty)]
        [("m", DescriptiveStats.empty), ("x", DescriptiveStats.empty)]).lookup
          "m" =
      some (LessThanStatCheck.check DescriptiveStats.empty
        DescriptiveStats.empty)) ∧
    ((checkAll LessThanStatCheck.check [("m", DescriptiveStats.empty)]
        [("m", DescriptiveStats.empty), ("x", DescriptiveStats.empty)]).lookup
          "x" = none) :=
  ⟨(checkAll_key_structure LessThanStatCheck.check
      [("m", DescriptiveStats.empty)]
      [("m", DescriptiveStats.empty), ("x", DescriptiveStats.empty)]).1,
   (checkAll_key_structure LessThanStatCheck.check
      [("m", DescriptiveStats.empty)]
      [("m", DescriptiveStats.empty), ("x", DescriptiveStats.empty)]).2.1
     "m" DescriptiveStats.empty DescriptiveStats.empty rfl rfl,
   (checkAll_key_structure LessThanStatCheck.check
      [("m", DescriptiveStats.empty)]
      [("m", DescriptiveStats.empty), ("x", DescriptiveStats.empty)]).2.2
     "x" rfl⟩
